import Mathlib

/-
Shallow embedding of the parquet merge tool (the merger program of
src/write-read.go, lines 218-438): schema extraction from file metadata,
type mapping, schema union with conflict detection, and the streaming
copy of records into a shared writer, together with the orchestration in
`merge` (output-file creation, abort-on-error, finalization).

The external parquet library is modelled through its observable effects:
a file is its metadata (schema elements) plus the sequence of records a
schema-constrained reader yields; the shared writer is a list of accepted
records together with, per append call, the count (or error) it reports.
Go map iteration order in the copy loop is modelled by an explicit order
parameter ranging over permutations of the retained files.
-/

namespace ParquetMerge

/-- Canonical scalar kinds of parquet nodes used by the merger: signed and
unsigned fixed-width integers, floats, boolean, byte array, and string. -/
inductive Kind where
  | int (bits : Nat) (signed : Bool)
  | float
  | double
  | boolean
  | byteArray
  | string
  deriving DecidableEq, Repr

/-- A parquet schema node: a scalar kind plus its repetition (optional or
required), mirroring parquet.Optional(...) / parquet.Required(...). -/
structure Node where
  optional : Bool
  kind : Kind
  deriving DecidableEq, Repr

/-- parquet.Int(bits): signed integer kind. -/
def pqInt (bits : Nat) : Kind := Kind.int bits true

/-- parquet.Uint(bits): unsigned integer kind. -/
def pqUint (bits : Nat) : Kind := Kind.int bits false

/-- parquet.Optional(node): mark a kind optional. -/
def pqOptional (k : Kind) : Node := { optional := true, kind := k }

/-- Errors the merger can raise, one constructor per fmt/log call site in
the source, carrying exactly the data the corresponding format string
interpolates. -/
inductive Err where
  | unsupportedType (typ logical : String)
  | schemaMismatch (column : String)
  | writeCountMismatch (n : Nat)
  | ioError (msg : String)
  deriving DecidableEq, Repr

/-- The diagnostic message each error renders to, following the source's
format strings verbatim. -/
def Err.message : Err → String
  | .unsupportedType t l => "unsupported type: " ++ t ++ ", logical " ++ l
  | .schemaMismatch c => "schema mismatch: " ++ c
  | .writeCountMismatch n => "expected to write 1 record, wrote " ++ toString n
  | .ioError m => m

/-- Whether `pat` occurs as a contiguous run inside `l`. -/
def containsSub (pat : List Char) : List Char → Bool
  | [] => pat.isEmpty
  | c :: rest => pat.isPrefixOf (c :: rest) || containsSub pat rest

/-- Whether `pat` occurs as a substring of `s` (used to ask whether a
diagnostic message mentions a given name). -/
def containsStr (s pat : String) : Bool := containsSub pat.toList s.toList

/-- Association-list lookup with Go-map semantics (keys are kept unique by
all inserters below). -/
def alookup {α : Type} (k : String) : List (String × α) → Option α
  | [] => none
  | (k₂, v) :: rest => if k = k₂ then some v else alookup k rest

/-- A name-to-node mapping, as built by getSchemaNodes and the merge fold
(Go: map[string]parquet.Node, here an insertion-ordered list with unique
keys). -/
abbrev Schema := List (String × Node)

/-- The fixed descriptor-name-to-node table of write-read.go lines 412-426:
every entry is Optional. -/
def nodemap : List (String × Node) :=
  [ ("INT8", pqOptional (pqInt 8)),
    ("INT16", pqOptional (pqInt 16)),
    ("INT32", pqOptional (pqInt 32)),
    ("INT64", pqOptional (pqInt 64)),
    ("UINT8", pqOptional (pqUint 8)),
    ("UINT16", pqOptional (pqUint 16)),
    ("UINT32", pqOptional (pqUint 32)),
    ("UINT64", pqOptional (pqUint 64)),
    ("FLOAT", pqOptional Kind.float),
    ("DOUBLE", pqOptional Kind.double),
    ("BOOLEAN", pqOptional Kind.boolean),
    ("BYTE_ARRAY", pqOptional (Kind.byteArray)) ]

/-- string_node of write-read.go line 427: Optional(parquet.String()). -/
def string_node : Node := pqOptional Kind.string

/-- schemaTypeToNode (write-read.go lines 430-438): a STRING logical
annotation yields string_node regardless of the raw descriptor; otherwise
the descriptor is looked up in nodemap; unrecognized pairs fail with an
unsupported-type error carrying both strings. -/
def schemaTypeToNode (typ logical : String) : Except Err Node :=
  if logical = "STRING" then .ok string_node
  else
    match alookup typ nodemap with
    | some node => .ok node
    | none => .error (.unsupportedType typ logical)

/-- One element of a parquet file's metadata schema list (Go:
format.SchemaElement as consumed by getSchemaNodes): a name, an optional
raw type descriptor (none for group markers), and an optional logical-type
annotation, both already rendered to strings. -/
structure SchemaElem where
  name : String
  typ : Option String
  logicalType : Option String
  deriving DecidableEq, Repr

/-- Loop body of getSchemaNodes (write-read.go lines 386-407): walk the
metadata schema elements in stored order, skip type-less (group) elements,
map each leaf via schemaTypeToNode, bind first occurrences, accept equal
re-occurrences, and fail on a re-occurrence with a different node. -/
def getSchemaNodesAux : List SchemaElem → Schema → Except Err Schema
  | [], nodes => .ok nodes
  | e :: rest, nodes =>
    match e.typ with
    | none => getSchemaNodesAux rest nodes
    | some typ =>
      let logicalType := e.logicalType.getD ""
      match schemaTypeToNode typ logicalType with
      | .error err => .error err
      | .ok stype =>
        match alookup e.name nodes with
        | some currentNode =>
          if currentNode = stype then getSchemaNodesAux rest nodes
          else .error (.schemaMismatch e.name)
        | none => getSchemaNodesAux rest (nodes ++ [(e.name, stype)])

/-- getSchemaNodes (write-read.go lines 369-410), with the file already
opened and its metadata in hand. -/
def getSchemaNodes (meta : List SchemaElem) : Except Err Schema :=
  getSchemaNodesAux meta []

example : schemaTypeToNode "INT64" "" = .ok (pqOptional (pqInt 64)) := rfl
example : schemaTypeToNode "BYTE_ARRAY" "STRING" = .ok string_node := rfl
example : schemaTypeToNode "INT96" "" = .error (.unsupportedType "INT96" "") := rfl
example :
    getSchemaNodes [⟨"root", none, none⟩, ⟨"x", some "INT64", none⟩,
      ⟨"x", some "INT64", none⟩] = .ok [("x", pqOptional (pqInt 64))] := rfl
example :
    getSchemaNodes [⟨"x", some "INT64", none⟩, ⟨"x", some "BYTE_ARRAY", some "STRING"⟩] =
      .error (.schemaMismatch "x") := rfl

/-- A dynamically-typed scalar value carried by a record field (Go: the
`any` payloads a map[string]any record holds). -/
inductive Value where
  | vint (i : Int)
  | vstr (s : String)
  | vbool (b : Bool)
  | vbytes (bs : List Nat)
  deriving DecidableEq, Repr

/-- One row as read into a map[string]any: a name-to-value mapping with
unique keys. -/
abbrev Record := List (String × Value)

/-- A source parquet file as the merger observes it through the library:
its path, its metadata schema elements, the records a reader constrained
to the file's own schema yields (in order), and an optional read error the
reader reports after the listed records instead of EOF. -/
structure PFile where
  path : String
  meta : List SchemaElem
  rows : List Record
  readFail : Option String
  deriving DecidableEq, Repr

/-- What the shared writer reports for one append call: the written count,
or an I/O error (Go: the (n, err) return of writer.Write). -/
inductive AppendResult where
  | ok (n : Nat)
  | ioErr (msg : String)
  deriving DecidableEq, Repr

/-- State of the shared output writer: the records it has accepted, and
how many append calls have been made (the index into the append-behavior
oracle). -/
structure CopyState where
  written : List Record
  calls : Nat
  deriving DecidableEq, Repr

/-- copyFromFile (write-read.go lines 341-367): read records one at a time
and append each to the shared writer; an append I/O error or a reported
count different from 1 stops the copy with an error; exhausting the reader
is normal termination unless the reader itself fails. `beh` gives the
writer's response to each append call by global call index. -/
def copyFromFile (beh : Nat → AppendResult) (readFail : Option String) :
    List Record → CopyState → CopyState × Option Err
  | [], st =>
    match readFail with
    | some m => (st, some (.ioError m))
    | none => (st, none)
  | r :: rest, st =>
    match beh st.calls with
    | .ioErr m => ({ st with calls := st.calls + 1 }, some (.ioError m))
    | .ok n =>
      if n = 1 then
        copyFromFile beh readFail rest { written := st.written ++ [r], calls := st.calls + 1 }
      else ({ st with calls := st.calls + 1 }, some (.writeCountMismatch n))

/-- The keep check of merge (write-read.go lines 286-292): a file is kept
iff every required field name is present in its extracted nodes. -/
def keep (rfields : List String) (nodes : Schema) : Bool :=
  rfields.all (fun field => (alookup field nodes).isSome)

/-- The per-file union fold of merge (write-read.go lines 297-305): insert
each (name, node) of one file into the accumulated merged schema; a name
already bound to a different node is a fatal schema mismatch; a name bound
to the same node is a no-op. -/
def unionNodes : Schema → Schema → Except Err Schema
  | ms, [] => .ok ms
  | ms, (k, v) :: rest =>
    match alookup k ms with
    | some currentNode =>
      if currentNode = v then unionNodes ms rest
      else .error (.schemaMismatch k)
    | none => unionNodes (ms ++ [(k, v)]) rest

/-- The schema phase of merge (write-read.go lines 279-306): extract each
candidate file's nodes, drop files failing the required-fields check, and
fold the kept files' nodes into the merged schema in input order, retaining
each kept file together with its own extracted schema. -/
def foldSchemas (rfields : List String) :
    List PFile → Schema → List (PFile × Schema) → Except Err (Schema × List (PFile × Schema))
  | [], ms, retained => .ok (ms, retained)
  | f :: rest, ms, retained =>
    match getSchemaNodes f.meta with
    | .error e => .error e
    | .ok nodes =>
      if keep rfields nodes then
        match unionNodes ms nodes with
        | .error e => .error e
        | .ok ms2 => foldSchemas rfields rest ms2 (retained ++ [(f, nodes)])
      else foldSchemas rfields rest ms retained

/-- The copy phase of merge (write-read.go lines 318-334): copy each
retained file in turn through the shared writer, stopping at the first
error. -/
def copyAll (beh : Nat → AppendResult) :
    List (PFile × Schema) → CopyState → CopyState × Option Err
  | [], st => (st, none)
  | p :: rest, st =>
    match copyFromFile beh p.1.readFail p.1.rows st with
    | (st2, some e) => (st2, some e)
    | (st2, none) => copyAll beh rest st2

/-- Observable outcome of one merge run: the fatal error if the run
aborted, the paths at which files were created, whether the writer was
closed (finalized), the records the writer accepted, and the merged
schema. -/
structure MergeOutcome where
  fatal : Option Err
  createdPaths : List String
  finalized : Bool
  written : List Record
  mergedSchema : Schema
  deriving DecidableEq, Repr

/-- merge (write-read.go lines 278-339): run the schema phase; on success
create the output file directly at `outfile` (there is no temporary path
and no rename), then copy the retained files in the order `pick` chooses
(modelling Go map iteration over fileSchema, an arbitrary permutation of
the retained files), and close the writer only if every copy succeeded.
A schema-phase error aborts before the output file is created; a copy
error aborts after it, leaving the writer unclosed. -/
def merge (outfile : String) (rfields : List String) (files : List PFile)
    (pick : List (PFile × Schema) → List (PFile × Schema))
    (beh : Nat → AppendResult) : MergeOutcome :=
  match foldSchemas rfields files [] [] with
  | .error e =>
    { fatal := some e, createdPaths := [], finalized := false, written := [], mergedSchema := [] }
  | .ok (ms, retained) =>
    match copyAll beh (pick retained) { written := [], calls := 0 } with
    | (st, some e) =>
      { fatal := some e, createdPaths := [outfile], finalized := false,
        written := st.written, mergedSchema := ms }
    | (st, none) =>
      { fatal := none, createdPaths := [outfile], finalized := true,
        written := st.written, mergedSchema := ms }

/-- Helper for the comma split: accumulate the current field (reversed)
while scanning the characters. -/
def splitCommaAux : List Char → List Char → List String
  | [], acc => [String.mk acc.reverse]
  | c :: rest, acc =>
    if c = ',' then String.mk acc.reverse :: splitCommaAux rest []
    else splitCommaAux rest (c :: acc)

/-- The required-fields list main builds from the command-line flag
(write-read.go line 255): strings.Split of the flag value on ",".
Like Go's strings.Split, splitting the empty string yields [""]. -/
def rfieldsOfFlag (flag : String) : List String := splitCommaAux flag.toList []

/-- strings.HasSuffix. -/
def goHasSuffix (s sfx : String) : Bool := List.isSuffixOf sfx.toList s.toList

/-- findFiles (write-read.go lines 261-276): keep the non-directory
entries whose names end in ".parquet", prefixed with the directory.
An entry is a (name, isDirectory) pair. -/
def findFiles (dir : String) (entries : List (String × Bool)) : List String :=
  entries.filterMap (fun e =>
    if e.2 then none
    else if goHasSuffix e.1 ".parquet" then some (dir ++ "/" ++ e.1) else none)

/-- The names bound by a schema. -/
def schemaNames (s : Schema) : List String := s.map (fun kv => kv.1)

/-- A writer behavior that always reports success with count 1. -/
def behOk : Nat → AppendResult := fun _ => .ok 1

/-- A writer behavior whose every append fails with an I/O error. -/
def behFail : Nat → AppendResult := fun _ => .ioErr "write failed"

/-- Sample file with a single INT64 column x and one record. -/
def fileX : PFile :=
  { path := "a.parquet", meta := [⟨"x", some "INT64", none⟩],
    rows := [[("x", Value.vint 5)]], readFail := none }

/-- Sample file with a single STRING column x and one record. -/
def fileXstr : PFile :=
  { path := "b.parquet", meta := [⟨"x", some "BYTE_ARRAY", some "STRING"⟩],
    rows := [[("x", Value.vstr "hi")]], readFail := none }

/-- Sample file with a single STRING column y and one record. -/
def fileY : PFile :=
  { path := "c.parquet", meta := [⟨"y", some "BYTE_ARRAY", some "STRING"⟩],
    rows := [[("y", Value.vstr "hi")]], readFail := none }

/-- A writer behavior whose first append reports count 1 and whose later
appends report count 0 while no error. -/
def behBad : Nat → AppendResult := fun i => if i = 0 then .ok 1 else .ok 0

example :
    merge "merged.parquet" [] [fileX] id behOk =
      { fatal := none, createdPaths := ["merged.parquet"], finalized := true,
        written := [[("x", Value.vint 5)]], mergedSchema := [("x", pqOptional (pqInt 64))] } := rfl

example :
    (merge "merged.parquet" [] [fileX] id behFail).fatal = some (.ioError "write failed") := rfl

example : rfieldsOfFlag "" = [""] := rfl
example : rfieldsOfFlag "x,y" = ["x", "y"] := rfl

theorem alookup_mem {α : Type} {k : String} {v : α} :
    ∀ {l : List (String × α)}, alookup k l = some v → (k, v) ∈ l := by
  intro l
  induction l with
  | nil => intro h; simp [alookup] at h
  | cons kv rest ih =>
    intro h
    rcases kv with ⟨k₂, v₂⟩
    by_cases hk : k = k₂
    · simp [alookup, hk] at h
      simp [hk, h]
    · simp [alookup, hk] at h
      exact List.mem_cons_of_mem _ (ih h)

theorem alookup_none {α : Type} {k : String} {names : List String} :
    ∀ {r : List (String × α)}, (∀ kv ∈ r, kv.1 ∈ names) → k ∉ names →
      alookup k r = none := by
  intro r
  induction r with
  | nil => intro _ _; rfl
  | cons kv rest ih =>
    intro hkeys hk
    rcases kv with ⟨k₂, v₂⟩
    by_cases heq : k = k₂
    · exact absurd (heq ▸ hkeys (k₂, v₂) (List.mem_cons_self _ _)) hk
    · simpa [alookup, heq] using ih (fun kv hkv => hkeys kv (List.mem_cons_of_mem _ hkv)) hk

theorem nodemap_optional : ∀ kv ∈ nodemap, kv.2.optional = true := by decide

theorem schemaTypeToNode_optional {t l : String} {n : Node}
    (h : schemaTypeToNode t l = .ok n) : n.optional = true := by
  unfold schemaTypeToNode at h
  by_cases hl : l = "STRING"
  · simp [hl] at h
    simp [← h, string_node, pqOptional]
  · simp [hl] at h
    cases ha : alookup t nodemap with
    | none => simp [ha] at h
    | some node =>
      simp [ha] at h
      exact h ▸ nodemap_optional _ (alookup_mem ha)

theorem getSchemaNodesAux_optional :
    ∀ (elems : List SchemaElem) (acc nodes : Schema),
      getSchemaNodesAux elems acc = .ok nodes →
      (∀ kv ∈ acc, kv.2.optional = true) → ∀ kv ∈ nodes, kv.2.optional = true := by
  intro elems
  induction elems with
  | nil =>
    intro acc nodes h hacc
    simp [getSchemaNodesAux] at h
    exact h ▸ hacc
  | cons e rest ih =>
    intro acc nodes h hacc
    cases he : e.typ with
    | none =>
      simp only [getSchemaNodesAux, he] at h
      exact ih acc nodes h hacc
    | some t =>
      simp only [getSchemaNodesAux, he] at h
      cases hst : schemaTypeToNode t (e.logicalType.getD "") with
      | error err => simp only [hst] at h; simp at h
      | ok stype =>
        simp only [hst] at h
        cases hl : alookup e.name acc with
        | some currentNode =>
          simp only [hl] at h
          by_cases hcur : currentNode = stype
          · rw [if_pos hcur] at h
            exact ih acc nodes h hacc
          · rw [if_neg hcur] at h; simp at h
        | none =>
          simp only [hl] at h
          refine ih _ nodes h ?_
          intro kv hkv
          rcases List.mem_append.mp hkv with hkv | hkv
          · exact hacc kv hkv
          · simp at hkv
            rw [hkv]
            exact schemaTypeToNode_optional hst

theorem unionNodes_optional :
    ∀ (nodes ms ms2 : Schema),
      unionNodes ms nodes = .ok ms2 →
      (∀ kv ∈ ms, kv.2.optional = true) → (∀ kv ∈ nodes, kv.2.optional = true) →
      ∀ kv ∈ ms2, kv.2.optional = true := by
  intro nodes
  induction nodes with
  | nil =>
    intro ms ms2 h hms _
    simp [unionNodes] at h
    exact h ▸ hms
  | cons kv₀ rest ih =>
    intro ms ms2 h hms hnodes
    rcases kv₀ with ⟨k, v⟩
    cases hl : alookup k ms with
    | some currentNode =>
      simp only [unionNodes, hl] at h
      by_cases hcur : currentNode = v
      · rw [if_pos hcur] at h
        exact ih ms ms2 h hms (fun kv hkv => hnodes kv (List.mem_cons_of_mem _ hkv))
      · rw [if_neg hcur] at h; simp at h
    | none =>
      simp only [unionNodes, hl] at h
      refine ih _ ms2 h ?_ (fun kv hkv => hnodes kv (List.mem_cons_of_mem _ hkv))
      intro kv hkv
      rcases List.mem_append.mp hkv with hkv | hkv
      · exact hms kv hkv
      · simp at hkv
        rw [hkv]
        exact hnodes (k, v) (List.mem_cons_self _ _)

theorem foldSchemas_optional (rfields : List String) :
    ∀ (files : List PFile) (ms : Schema) (ret : List (PFile × Schema))
      (ms2 : Schema) (ret2 : List (PFile × Schema)),
      foldSchemas rfields files ms ret = .ok (ms2, ret2) →
      (∀ kv ∈ ms, kv.2.optional = true) → ∀ kv ∈ ms2, kv.2.optional = true := by
  intro files
  induction files with
  | nil =>
    intro ms ret ms2 ret2 h hms
    simp [foldSchemas] at h
    exact h.1 ▸ hms
  | cons f rest ih =>
    intro ms ret ms2 ret2 h hms
    cases hg : getSchemaNodes f.meta with
    | error e => simp only [foldSchemas, hg] at h; simp at h
    | ok nodes =>
      simp only [foldSchemas, hg] at h
      by_cases hk : keep rfields nodes
      · rw [if_pos hk] at h
        cases hu : unionNodes ms nodes with
        | error e => simp only [hu] at h; simp at h
        | ok ms3 =>
          simp only [hu] at h
          refine ih ms3 _ ms2 ret2 h ?_
          exact unionNodes_optional nodes ms ms3 hu hms
            (getSchemaNodesAux_optional f.meta [] nodes hg (by simp))
      · rw [if_neg hk] at h
        exact ih ms ret ms2 ret2 h hms

theorem copyFromFile_none (beh : Nat → AppendResult) (rf : Option String) :
    ∀ (rows : List Record) (st : CopyState),
      (copyFromFile beh rf rows st).2 = none →
      (copyFromFile beh rf rows st).1.written = st.written ++ rows := by
  intro rows
  induction rows with
  | nil =>
    intro st h
    cases hrf : rf with
    | some m => simp [copyFromFile, hrf] at h
    | none => simp [copyFromFile, hrf]
  | cons r rest ih =>
    intro st h
    cases hb : beh st.calls with
    | ioErr m => simp only [copyFromFile, hb] at h; simp at h
    | ok n =>
      by_cases hn : n = 1
      · simp only [copyFromFile, hb, if_pos hn] at h ⊢
        rw [ih _ h]
        simp
      · simp only [copyFromFile, hb, if_neg hn] at h; simp at h

theorem copyAll_none (beh : Nat → AppendResult) :
    ∀ (fs : List (PFile × Schema)) (st : CopyState),
      (copyAll beh fs st).2 = none →
      (copyAll beh fs st).1.written =
        st.written ++ fs.flatMap (fun p => p.1.rows) := by
  intro fs
  induction fs with
  | nil => intro st _; simp [copyAll]
  | cons p rest ih =>
    intro st h
    cases hc : copyFromFile beh p.1.readFail p.1.rows st with
    | mk st2 e =>
      cases e with
      | some e2 => simp only [copyAll, hc] at h; simp at h
      | none =>
        simp only [copyAll, hc] at h ⊢
        rw [ih st2 h]
        have hw : st2.written = st.written ++ p.1.rows := by
          have := copyFromFile_none beh p.1.readFail p.1.rows st
          rw [hc] at this
          exact this rfl
        rw [hw]
        simp

theorem copyFromFile_runs (beh : Nat → AppendResult) (hbeh : ∀ i, beh i = .ok 1) :
    ∀ (rows : List Record) (st : CopyState),
      copyFromFile beh none rows st =
        ({ written := st.written ++ rows, calls := st.calls + rows.length }, none) := by
  intro rows
  induction rows with
  | nil => intro st; simp [copyFromFile]
  | cons r rest ih =>
    intro st
    simp only [copyFromFile, hbeh st.calls, if_pos rfl]
    rw [ih]
    simp [Nat.add_comm, Nat.add_assoc, Nat.add_left_comm]

theorem copyAll_runs (beh : Nat → AppendResult) (hbeh : ∀ i, beh i = .ok 1) :
    ∀ (fs : List (PFile × Schema)) (st : CopyState),
      (∀ p ∈ fs, p.1.readFail = none) →
      copyAll beh fs st =
        ({ written := st.written ++ fs.flatMap (fun p => p.1.rows),
           calls := st.calls + (fs.flatMap (fun p => p.1.rows)).length }, none) := by
  intro fs
  induction fs with
  | nil => intro st _; simp [copyAll]
  | cons p rest ih =>
    intro st hrf
    have hp : p.1.readFail = none := hrf p (List.mem_cons_self _ _)
    simp only [copyAll, hp ▸ copyFromFile_runs beh hbeh p.1.rows st]
    rw [ih _ (fun q hq => hrf q (List.mem_cons_of_mem _ hq))]
    simp [Nat.add_assoc]

theorem copyFromFile_mem (beh : Nat → AppendResult) (rf : Option String) :
    ∀ (rows : List Record) (st : CopyState) (r : Record),
      r ∈ (copyFromFile beh rf rows st).1.written → r ∈ st.written ∨ r ∈ rows := by
  intro rows
  induction rows with
  | nil =>
    intro st r h
    cases hrf : rf with
    | some m => simp [copyFromFile, hrf] at h; exact Or.inl h
    | none => simp [copyFromFile, hrf] at h; exact Or.inl h
  | cons row rest ih =>
    intro st r h
    cases hb : beh st.calls with
    | ioErr m =>
      simp only [copyFromFile, hb] at h
      exact Or.inl h
    | ok n =>
      by_cases hn : n = 1
      · simp only [copyFromFile, hb, if_pos hn] at h
        rcases ih _ r h with hmem | hmem
        · rcases List.mem_append.mp hmem with hmem | hmem
          · exact Or.inl hmem
          · simp at hmem
            exact Or.inr (by simp [hmem])
        · exact Or.inr (List.mem_cons_of_mem _ hmem)
      · simp only [copyFromFile, hb, if_neg hn] at h
        exact Or.inl h

theorem copyAll_mem (beh : Nat → AppendResult) :
    ∀ (fs : List (PFile × Schema)) (st : CopyState) (r : Record),
      r ∈ (copyAll beh fs st).1.written →
      r ∈ st.written ∨ ∃ p, p ∈ fs ∧ r ∈ p.1.rows := by
  intro fs
  induction fs with
  | nil => intro st r h; simp [copyAll] at h; exact Or.inl h
  | cons p rest ih =>
    intro st r h
    cases hc : copyFromFile beh p.1.readFail p.1.rows st with
    | mk st2 e =>
      have hw : r ∈ st2.written → r ∈ st.written ∨ r ∈ p.1.rows := by
        intro hr
        have := copyFromFile_mem beh p.1.readFail p.1.rows st r
        rw [hc] at this
        exact this hr
      cases e with
      | some e2 =>
        simp only [copyAll, hc] at h
        rcases hw h with hmem | hmem
        · exact Or.inl hmem
        · exact Or.inr ⟨p, List.mem_cons_self _ _, hmem⟩
      | none =>
        simp only [copyAll, hc] at h
        rcases ih st2 r h with hmem | ⟨q, hq, hmem⟩
        · rcases hw hmem with hmem2 | hmem2
          · exact Or.inl hmem2
          · exact Or.inr ⟨p, List.mem_cons_self _ _, hmem2⟩
        · exact Or.inr ⟨q, List.mem_cons_of_mem _ hq, hmem⟩

theorem foldSchemas_skip (rfields : List String) :
    ∀ (files : List PFile) (ms : Schema) (ret : List (PFile × Schema)),
      (∀ f ∈ files, ∃ nodes, getSchemaNodes f.meta = .ok nodes ∧
          keep rfields nodes = false) →
      foldSchemas rfields files ms ret = .ok (ms, ret) := by
  intro files
  induction files with
  | nil => intro ms ret _; rfl
  | cons f rest ih =>
    intro ms ret h
    rcases h f (List.mem_cons_self _ _) with ⟨nodes, hg, hk⟩
    simp only [foldSchemas, hg, hk]
    simp only [Bool.false_eq_true, if_false]
    exact ih ms ret (fun g hgmem => h g (List.mem_cons_of_mem _ hgmem))

theorem copyFromFile_mismatch (beh : Nat → AppendResult) (rf : Option String)
    (n : Nat) (hn : n ≠ 1) :
    ∀ (rows : List Record) (j : Nat) (st : CopyState),
      j < rows.length →
      (∀ i, i < j → beh (st.calls + i) = .ok 1) →
      beh (st.calls + j) = .ok n →
      (copyFromFile beh rf rows st).2 = some (.writeCountMismatch n)
      ∧ (copyFromFile beh rf rows st).1.written = st.written ++ rows.take j := by
  intro rows
  induction rows with
  | nil => intro j st hj _ _; exact absurd hj (Nat.not_lt_zero j)
  | cons r rest ih =>
    intro j st hj hprev hcur
    cases j with
    | zero =>
      have hb : beh st.calls = .ok n := by simpa using hcur
      simp [copyFromFile, hb, hn]
    | succ j2 =>
      have hb : beh st.calls = .ok 1 := by simpa using hprev 0 (Nat.succ_pos j2)
      simp only [copyFromFile, hb]
      rw [if_true]
      have hj2 : j2 < rest.length := Nat.lt_of_succ_lt_succ hj
      have hprev2 : ∀ i, i < j2 → beh (st.calls + 1 + i) = .ok 1 := by
        intro i hi
        have := hprev (i + 1) (Nat.succ_lt_succ hi)
        simpa [Nat.add_comm, Nat.add_assoc, Nat.add_left_comm] using this
      have hcur2 : beh (st.calls + 1 + j2) = .ok n := by
        simpa [Nat.add_comm, Nat.add_assoc, Nat.add_left_comm] using hcur
      have hres := ih j2 { written := st.written ++ [r], calls := st.calls + 1 } hj2 hprev2 hcur2
      refine ⟨hres.1, ?_⟩
      rw [hres.2]
      simp

/-- C1: the claim says a failed copy leaves no file at the final output
path. It is false: merge creates the output directly at the final path
(os.Create(outfile), write-read.go line 309, with no temporary name and no
rename), so after a copy failure the aborted run has already created a
file at the final output path. -/
theorem C1_counterexample :
    (merge "merged.parquet" [] [fileX] id behFail).fatal = some (Err.ioError "write failed")
  ∧ (merge "merged.parquet" [] [fileX] id behFail).finalized = false
  ∧ "merged.parquet" ∈ (merge "merged.parquet" [] [fileX] id behFail).createdPaths := by
  refine ⟨rfl, rfl, ?_⟩
  decide

/-- C1 (amended): in every run whose schema phase succeeds and which then
aborts with a fatal error (in particular every run in which a copy step
fails), the writer is never finalized, but the output file has already
been created at the final output path. -/
theorem C1_abort_unfinalized (outfile : String) (rfields : List String)
    (files : List PFile)
    (pick : List (PFile × Schema) → List (PFile × Schema))
    (beh : Nat → AppendResult) (ms : Schema) (retained : List (PFile × Schema)) (e : Err)
    (hfold : foldSchemas rfields files [] [] = .ok (ms, retained))
    (hfatal : (merge outfile rfields files pick beh).fatal = some e) :
    (merge outfile rfields files pick beh).finalized = false
  ∧ (merge outfile rfields files pick beh).createdPaths = [outfile] := by
  simp only [merge, hfold] at hfatal ⊢
  cases hc : copyAll beh (pick retained) { written := [], calls := 0 } with
  | mk st e2 =>
    cases e2 with
    | none => simp [hc] at hfatal
    | some e3 => simp [hc]

/-- C1 witness: a concrete aborted run exercising C1_abort_unfinalized. -/
theorem C1_witness :
    foldSchemas [] [fileX] [] [] =
      .ok ([("x", pqOptional (pqInt 64))], [(fileX, [("x", pqOptional (pqInt 64))])])
  ∧ (merge "merged.parquet" [] [fileX] id behFail).fatal = some (Err.ioError "write failed")
  ∧ ((merge "merged.parquet" [] [fileX] id behFail).finalized = false
      ∧ (merge "merged.parquet" [] [fileX] id behFail).createdPaths = ["merged.parquet"]) :=
  ⟨rfl, rfl,
    C1_abort_unfinalized "merged.parquet" [] [fileX] id behFail _ _ _ rfl rfl⟩

/-- C2: the claim requires the required-columns set produced from an empty
command-line flag to be empty and so include all files. The code instead
splits the empty flag value into [""], a nonempty list requiring a column
named "", which excludes every ordinary file: with one candidate file
having column x, the run with the flag-derived list produces an empty
output, whereas the genuinely empty list includes the file. -/
theorem C2_flag_empty_excludes_all :
    rfieldsOfFlag "" = [""]
  ∧ keep (rfieldsOfFlag "") [("x", pqOptional (pqInt 64))] = false
  ∧ merge "merged.parquet" (rfieldsOfFlag "") [fileX] id behOk =
      { fatal := none, createdPaths := ["merged.parquet"], finalized := true,
        written := [], mergedSchema := [] }
  ∧ merge "merged.parquet" [] [fileX] id behOk =
      { fatal := none, createdPaths := ["merged.parquet"], finalized := true,
        written := [[("x", Value.vint 5)]],
        mergedSchema := [("x", pqOptional (pqInt 64))] } := by
  refine ⟨by decide, by decide, by decide, by decide⟩

/-- C3: the claim says the cross-file type-mismatch error names the column
and the two conflicting types. It is false: the error message is
"schema mismatch: x", which names the column but mentions neither
conflicting type (neither the INT64 descriptor of file a.parquet nor the
STRING annotation of file b.parquet). -/
theorem C3_counterexample :
    foldSchemas [] [fileX, fileXstr] [] [] = .error (Err.schemaMismatch "x")
  ∧ (merge "merged.parquet" [] [fileX, fileXstr] id behOk).fatal =
      some (Err.schemaMismatch "x")
  ∧ (Err.schemaMismatch "x").message = "schema mismatch: x"
  ∧ containsStr (Err.schemaMismatch "x").message "INT64" = false
  ∧ containsStr (Err.schemaMismatch "x").message "STRING" = false := by
  refine ⟨rfl, rfl, rfl, by decide, by decide⟩

/-- C3 (amended): when the union fold reaches a (name, node) pair whose
name the merged schema already binds to a different node, it fails with a
schema-mismatch error naming the column (but not the conflicting types)
and never silently selects one of the nodes; when the nodes are identical
the pair is a no-op, leaving the single existing binding. -/
theorem C3_union_conflict (ms rest2 : Schema) (k : String) (n₁ n₂ : Node)
    (hms : alookup k ms = some n₁) :
    (n₂ ≠ n₁ →
      unionNodes ms ((k, n₂) :: rest2) = .error (.schemaMismatch k)
      ∧ (Err.schemaMismatch k).message = "schema mismatch: " ++ k)
  ∧ (n₂ = n₁ → unionNodes ms ((k, n₂) :: rest2) = unionNodes ms rest2) := by
  constructor
  · intro hne
    refine ⟨?_, rfl⟩
    simp only [unionNodes, hms]
    rw [if_neg (Ne.symm hne)]
  · intro heq
    simp only [unionNodes, hms]
    rw [if_pos heq.symm]

/-- C3 witness: a concrete conflicting pair exercising C3_union_conflict. -/
theorem C3_witness :
    alookup "x" [("x", pqOptional (pqInt 64))] = some (pqOptional (pqInt 64))
  ∧ ((string_node ≠ pqOptional (pqInt 64) →
        unionNodes [("x", pqOptional (pqInt 64))] [("x", string_node)] =
          .error (.schemaMismatch "x")
        ∧ (Err.schemaMismatch "x").message = "schema mismatch: " ++ "x")
      ∧ (string_node = pqOptional (pqInt 64) →
          unionNodes [("x", pqOptional (pqInt 64))] [("x", string_node)] =
            unionNodes [("x", pqOptional (pqInt 64))] [])) :=
  ⟨rfl, C3_union_conflict [("x", pqOptional (pqInt 64))] [] "x" (pqOptional (pqInt 64)) string_node rfl⟩

/-- C4: a successful merge writes exactly the records of the retained
files, in the order of the copy phase, and the number of output records is
the sum of the retained files' record counts. -/
theorem C4_row_conservation (outfile : String) (rfields : List String)
    (files : List PFile)
    (pick : List (PFile × Schema) → List (PFile × Schema))
    (beh : Nat → AppendResult) (ms : Schema) (retained : List (PFile × Schema))
    (hfold : foldSchemas rfields files [] [] = .ok (ms, retained))
    (hpick : (pick retained).Perm retained)
    (hok : (merge outfile rfields files pick beh).fatal = none) :
    (merge outfile rfields files pick beh).written =
        (pick retained).flatMap (fun p => p.1.rows)
  ∧ (merge outfile rfields files pick beh).written.length =
        (retained.map (fun p => p.1.rows.length)).sum := by
  simp only [merge, hfold] at hok ⊢
  cases hc : copyAll beh (pick retained) { written := [], calls := 0 } with
  | mk st e =>
    cases e with
    | some e2 => simp [hc] at hok
    | none =>
      simp only [hc]
      have hwr : st.written = (pick retained).flatMap (fun p => p.1.rows) := by
        have hca := copyAll_none beh (pick retained) { written := [], calls := 0 }
        rw [hc] at hca
        simpa using hca rfl
      refine ⟨hwr, ?_⟩
      rw [hwr, List.length_flatMap]
      exact (hpick.map (fun p => p.1.rows.length)).sum_eq

/-- C4 witness: a concrete two-file merge exercising C4_row_conservation. -/
theorem C4_witness :
    foldSchemas [] [fileX, fileY] [] [] =
      .ok ([("x", pqOptional (pqInt 64)), ("y", string_node)],
        [(fileX, [("x", pqOptional (pqInt 64))]), (fileY, [("y", string_node)])])
  ∧ (merge "merged.parquet" [] [fileX, fileY] id behOk).fatal = none
  ∧ ((merge "merged.parquet" [] [fileX, fileY] id behOk).written =
        (id [(fileX, [("x", pqOptional (pqInt 64))]),
             (fileY, [("y", string_node)])]).flatMap (fun p => p.1.rows)
      ∧ (merge "merged.parquet" [] [fileX, fileY] id behOk).written.length =
          ([(fileX, [("x", pqOptional (pqInt 64))]),
            (fileY, [("y", string_node)])].map (fun p => p.1.rows.length)).sum) :=
  ⟨rfl, rfl,
    C4_row_conservation "merged.parquet" [] [fileX, fileY] id behOk _ _ rfl
      (List.Perm.refl _) rfl⟩

/-- C5: the claim says two runs over the same inputs copy the files in the
same (input) order. It is false: the copy phase iterates a Go map, so any
permutation of the retained files is a possible run; two valid iteration
orders of the same two-file input produce the written records in different
orders. -/
theorem C5_counterexample :
    (List.reverse [(fileX, [("x", pqOptional (pqInt 64))]), (fileY, [("y", string_node)])]).Perm
        [(fileX, [("x", pqOptional (pqInt 64))]), (fileY, [("y", string_node)])]
  ∧ foldSchemas [] [fileX, fileY] [] [] =
      .ok ([("x", pqOptional (pqInt 64)), ("y", string_node)],
        [(fileX, [("x", pqOptional (pqInt 64))]), (fileY, [("y", string_node)])])
  ∧ (merge "merged.parquet" [] [fileX, fileY] id behOk).fatal = none
  ∧ (merge "merged.parquet" [] [fileX, fileY] List.reverse behOk).fatal = none
  ∧ (merge "merged.parquet" [] [fileX, fileY] id behOk).written ≠
      (merge "merged.parquet" [] [fileX, fileY] List.reverse behOk).written :=
  ⟨List.reverse_perm _, rfl, rfl, rfl, by decide⟩

/-- C5 (amended): the schema fold is a deterministic function of the input
file list, and for any two valid copy orders (permutations of the retained
files) an error-free run produces the same merged schema, the same number
of written records, and record multisets equal up to permutation; only the
record order may differ between runs. -/
theorem C5_order_invariance (outfile : String) (rfields : List String)
    (files : List PFile)
    (pick₁ pick₂ : List (PFile × Schema) → List (PFile × Schema))
    (beh : Nat → AppendResult) (ms : Schema) (retained : List (PFile × Schema))
    (hfold : foldSchemas rfields files [] [] = .ok (ms, retained))
    (h1 : (pick₁ retained).Perm retained) (h2 : (pick₂ retained).Perm retained)
    (hbeh : ∀ i, beh i = .ok 1)
    (hrf : ∀ p ∈ retained, p.1.readFail = none) :
    (merge outfile rfields files pick₁ beh).mergedSchema =
        (merge outfile rfields files pick₂ beh).mergedSchema
  ∧ (merge outfile rfields files pick₁ beh).fatal = none
  ∧ (merge outfile rfields files pick₂ beh).fatal = none
  ∧ (merge outfile rfields files pick₁ beh).written.Perm
        (merge outfile rfields files pick₂ beh).written
  ∧ (merge outfile rfields files pick₁ beh).written.length =
        (merge outfile rfields files pick₂ beh).written.length := by
  have hrun1 := copyAll_runs beh hbeh (pick₁ retained) { written := [], calls := 0 }
    (fun p hp => hrf p (h1.mem_iff.mp hp))
  have hrun2 := copyAll_runs beh hbeh (pick₂ retained) { written := [], calls := 0 }
    (fun p hp => hrf p (h2.mem_iff.mp hp))
  have hperm : ((pick₁ retained).flatMap (fun p => p.1.rows)).Perm
      ((pick₂ retained).flatMap (fun p => p.1.rows)) :=
    (h1.trans h2.symm).flatMap_right _
  refine ⟨?_, ?_, ?_, ?_, ?_⟩
  · simp [merge, hfold, hrun1, hrun2]
  · simp [merge, hfold, hrun1, hrun2]
  · simp [merge, hfold, hrun1, hrun2]
  · simp only [merge, hfold, hrun1, hrun2]
    simpa using hperm
  · simp only [merge, hfold, hrun1, hrun2]
    simpa using hperm.length_eq

/-- C5 witness: a concrete pair of valid copy orders exercising
C5_order_invariance. -/
theorem C5_witness :
    foldSchemas [] [fileX, fileY] [] [] =
      .ok ([("x", pqOptional (pqInt 64)), ("y", string_node)],
        [(fileX, [("x", pqOptional (pqInt 64))]), (fileY, [("y", string_node)])])
  ∧ (∀ p ∈ [(fileX, [("x", pqOptional (pqInt 64))]), (fileY, [("y", string_node)])],
        (Prod.fst p).readFail = none)
  ∧ ((merge "merged.parquet" [] [fileX, fileY] id behOk).mergedSchema =
        (merge "merged.parquet" [] [fileX, fileY] List.reverse behOk).mergedSchema
      ∧ (merge "merged.parquet" [] [fileX, fileY] id behOk).fatal = none
      ∧ (merge "merged.parquet" [] [fileX, fileY] List.reverse behOk).fatal = none
      ∧ (merge "merged.parquet" [] [fileX, fileY] id behOk).written.Perm
          (merge "merged.parquet" [] [fileX, fileY] List.reverse behOk).written
      ∧ (merge "merged.parquet" [] [fileX, fileY] id behOk).written.length =
          (merge "merged.parquet" [] [fileX, fileY] List.reverse behOk).written.length) :=
  ⟨rfl, by decide,
    C5_order_invariance "merged.parquet" [] [fileX, fileY] id List.reverse behOk _ _
      rfl (List.Perm.refl _) (List.reverse_perm _) (fun _ => rfl) (by decide)⟩

/-- C6: every record the merge writes is one of a retained file's records,
carried forward unchanged; provided each file's reader yields only columns
of that file's own schema, every merged-schema column absent from the
source file's schema is absent from the output record (not defaulted); and
every field of the merged schema is Optional. -/
theorem C6_record_fidelity (outfile : String) (rfields : List String)
    (files : List PFile)
    (pick : List (PFile × Schema) → List (PFile × Schema))
    (beh : Nat → AppendResult) (ms : Schema) (retained : List (PFile × Schema))
    (hfold : foldSchemas rfields files [] [] = .ok (ms, retained))
    (hpick : (pick retained).Perm retained)
    (hwf : ∀ p ∈ retained, ∀ r ∈ p.1.rows, ∀ kv ∈ r, kv.1 ∈ schemaNames p.2) :
    (∀ r ∈ (merge outfile rfields files pick beh).written,
        ∃ p, p ∈ retained ∧ r ∈ p.1.rows
          ∧ ∀ k, k ∉ schemaNames p.2 → alookup k r = none)
  ∧ (∀ kv ∈ (merge outfile rfields files pick beh).mergedSchema,
        kv.2.optional = true) := by
  constructor
  · intro r hr
    simp only [merge, hfold] at hr
    cases hc : copyAll beh (pick retained) { written := [], calls := 0 } with
    | mk st e =>
      have hr2 : r ∈ st.written := by
        cases e with
        | none => simpa [hc] using hr
        | some e2 => simpa [hc] using hr
      have hmemlem := copyAll_mem beh (pick retained) { written := [], calls := 0 } r
      rw [hc] at hmemlem
      rcases hmemlem hr2 with hmem | ⟨p, hp, hmem⟩
      · simp at hmem
      · have hpret : p ∈ retained := hpick.mem_iff.mp hp
        exact ⟨p, hpret, hmem, fun k hk => alookup_none (hwf p hpret r hmem) hk⟩
  · intro kv hkv
    simp only [merge, hfold] at hkv
    cases hc : copyAll beh (pick retained) { written := [], calls := 0 } with
    | mk st e =>
      have hkv2 : kv ∈ ms := by
        cases e with
        | none => simpa [hc] using hkv
        | some e2 => simpa [hc] using hkv
      exact foldSchemas_optional rfields files [] [] ms retained hfold (by simp) kv hkv2

/-- C6 witness: a concrete two-file merge exercising C6_record_fidelity. -/
theorem C6_witness :
    foldSchemas [] [fileX, fileY] [] [] =
      .ok ([("x", pqOptional (pqInt 64)), ("y", string_node)],
        [(fileX, [("x", pqOptional (pqInt 64))]), (fileY, [("y", string_node)])])
  ∧ (∀ p ∈ [(fileX, [("x", pqOptional (pqInt 64))]), (fileY, [("y", string_node)])],
        ∀ r ∈ (Prod.fst p).rows, ∀ kv ∈ r, kv.1 ∈ schemaNames p.2)
  ∧ ((∀ r ∈ (merge "merged.parquet" [] [fileX, fileY] id behOk).written,
        ∃ p, p ∈ [(fileX, [("x", pqOptional (pqInt 64))]), (fileY, [("y", string_node)])]
          ∧ r ∈ (Prod.fst p).rows
          ∧ ∀ k, k ∉ schemaNames p.2 → alookup k r = none)
      ∧ (∀ kv ∈ (merge "merged.parquet" [] [fileX, fileY] id behOk).mergedSchema,
            kv.2.optional = true)) :=
  ⟨rfl, by decide,
    C6_record_fidelity "merged.parquet" [] [fileX, fileY] id behOk _ _ rfl
      (List.Perm.refl _) (by decide)⟩

/-- C7: if, after j successful appends in a file copy, the writer reports
a count n different from the requested 1, the copier stops at that record
with the write-count-mismatch protocol error, having forwarded only the
first j records. -/
theorem C7_write_count (beh : Nat → AppendResult) (rf : Option String)
    (rows : List Record) (st : CopyState) (j n : Nat)
    (hj : j < rows.length)
    (hprev : ∀ i, i < j → beh (st.calls + i) = .ok 1)
    (hcur : beh (st.calls + j) = .ok n) (hn : n ≠ 1) :
    (copyFromFile beh rf rows st).2 = some (.writeCountMismatch n)
  ∧ (copyFromFile beh rf rows st).1.written = st.written ++ rows.take j :=
  copyFromFile_mismatch beh rf n hn rows j st hj hprev hcur

/-- C7 witness: a concrete copy whose second append reports count 0,
exercising C7_write_count. -/
theorem C7_witness :
    (1 < ([[("x", Value.vint 1)], [("x", Value.vint 2)]] : List Record).length)
  ∧ (∀ i, i < 1 → behBad (0 + i) = .ok 1)
  ∧ behBad (0 + 1) = .ok 0
  ∧ ((copyFromFile behBad none [[("x", Value.vint 1)], [("x", Value.vint 2)]]
        { written := [], calls := 0 }).2 = some (.writeCountMismatch 0)
      ∧ (copyFromFile behBad none [[("x", Value.vint 1)], [("x", Value.vint 2)]]
          { written := [], calls := 0 }).1.written =
        [] ++ ([[("x", Value.vint 1)], [("x", Value.vint 2)]] : List Record).take 1) :=
  ⟨by decide, by decide, by decide,
    C7_write_count behBad none [[("x", Value.vint 1)], [("x", Value.vint 2)]]
      { written := [], calls := 0 } 1 0 (by decide) (by decide) (by decide) (by decide)⟩

/-- C8: during single-file schema extraction, a type-less descriptor is
skipped; a repeated occurrence of an already-bound name whose mapped node
equals the first binding is a no-op; and a repeated occurrence with a
different mapped node fails extraction with a schema-conflict error naming
the column. -/
theorem C8_local_duplicates (rest : List SchemaElem) (acc : Schema) (e : SchemaElem) :
    (e.typ = none → getSchemaNodesAux (e :: rest) acc = getSchemaNodesAux rest acc)
  ∧ (∀ t nd nd2, e.typ = some t →
      schemaTypeToNode t (e.logicalType.getD "") = .ok nd2 →
      alookup e.name acc = some nd →
      ((nd2 = nd → getSchemaNodesAux (e :: rest) acc = getSchemaNodesAux rest acc)
        ∧ (nd2 ≠ nd →
            getSchemaNodesAux (e :: rest) acc = .error (.schemaMismatch e.name)))) := by
  constructor
  · intro he
    simp only [getSchemaNodesAux, he]
  · intro t nd nd2 he hst hl
    constructor
    · intro heq
      simp only [getSchemaNodesAux, he, hst, hl]
      rw [if_pos heq.symm]
    · intro hne
      simp only [getSchemaNodesAux, he, hst, hl]
      rw [if_neg (Ne.symm hne)]

/-- C8 witness: concrete duplicate occurrences (conflicting and equal)
exercising C8_local_duplicates. -/
theorem C8_witness :
    getSchemaNodesAux [⟨"x", some "BYTE_ARRAY", some "STRING"⟩]
        [("x", pqOptional (pqInt 64))] = .error (.schemaMismatch "x")
  ∧ getSchemaNodesAux [⟨"x", some "INT64", none⟩] [("x", pqOptional (pqInt 64))] =
      .ok [("x", pqOptional (pqInt 64))] := by
  constructor
  · exact ((C8_local_duplicates [] [("x", pqOptional (pqInt 64))]
        ⟨"x", some "BYTE_ARRAY", some "STRING"⟩).2 "BYTE_ARRAY"
        (pqOptional (pqInt 64)) string_node rfl rfl rfl).2 (by decide)
  · have h := ((C8_local_duplicates [] [("x", pqOptional (pqInt 64))]
        ⟨"x", some "INT64", none⟩).2 "INT64" (pqOptional (pqInt 64))
        (pqOptional (pqInt 64)) rfl rfl rfl).1 rfl
    exact h.trans rfl

/-- C9: the type mapper returns the String node for any descriptor when
the logical annotation is STRING; otherwise it maps each descriptor of the
fixed twelve-name table to its unique node and fails on any other pair
with an unsupported-type error carrying both strings. -/
theorem C9_type_mapper (typ logical : String) :
    schemaTypeToNode typ "STRING" = .ok string_node
  ∧ (logical ≠ "STRING" → ∀ node, alookup typ nodemap = some node →
        schemaTypeToNode typ logical = .ok node)
  ∧ (logical ≠ "STRING" → alookup typ nodemap = none →
        schemaTypeToNode typ logical = .error (.unsupportedType typ logical))
  ∧ schemaNames nodemap =
      ["INT8", "INT16", "INT32", "INT64", "UINT8", "UINT16", "UINT32",
       "UINT64", "FLOAT", "DOUBLE", "BOOLEAN", "BYTE_ARRAY"]
  ∧ (schemaNames nodemap).Nodup
  ∧ string_node.kind = Kind.string ∧ string_node.optional = true := by
  refine ⟨?_, ?_, ?_, rfl, by decide, rfl, rfl⟩
  · simp [schemaTypeToNode]
  · intro h node hn
    simp [schemaTypeToNode, h, hn]
  · intro h hn
    simp [schemaTypeToNode, h, hn]

/-- C9 witness: concrete descriptor/annotation pairs exercising
C9_type_mapper. -/
theorem C9_witness :
    schemaTypeToNode "INT64" "STRING" = .ok string_node
  ∧ schemaTypeToNode "INT64" "" = .ok (pqOptional (pqInt 64))
  ∧ schemaTypeToNode "INT96" "" = .error (.unsupportedType "INT96" "") :=
  ⟨(C9_type_mapper "INT64" "").1,
    (C9_type_mapper "INT64" "").2.1 (by decide) (pqOptional (pqInt 64)) rfl,
    (C9_type_mapper "INT96" "").2.2.1 (by decide) rfl⟩

/-- C10: when every candidate file is excluded by the required-columns
filter (vacuously, also when there are no candidate files), the merge does
not fail: it creates and finalizes an output file at the output path with
an empty schema and zero records. -/
theorem C10_empty_merge (outfile : String) (rfields : List String)
    (files : List PFile)
    (pick : List (PFile × Schema) → List (PFile × Schema))
    (beh : Nat → AppendResult)
    (h : ∀ f ∈ files, ∃ nodes, getSchemaNodes f.meta = .ok nodes ∧
        keep rfields nodes = false)
    (hpick : pick [] = []) :
    merge outfile rfields files pick beh =
      { fatal := none, createdPaths := [outfile], finalized := true,
        written := [], mergedSchema := [] } := by
  have hf := foldSchemas_skip rfields files [] [] h
  simp [merge, hf, hpick, copyAll]

/-- C10 witness: a concrete all-excluded run exercising C10_empty_merge. -/
theorem C10_witness :
    (∀ f ∈ [fileX], ∃ nodes, getSchemaNodes f.meta = .ok nodes ∧
        keep ["x", "zz"] nodes = false)
  ∧ merge "merged.parquet" ["x", "zz"] [fileX] id behOk =
      { fatal := none, createdPaths := ["merged.parquet"], finalized := true,
        written := [], mergedSchema := [] } := by
  have h : ∀ f ∈ [fileX], ∃ nodes, getSchemaNodes f.meta = .ok nodes ∧
      keep ["x", "zz"] nodes = false := by
    intro f hf
    simp only [List.mem_singleton] at hf
    subst hf
    exact ⟨[("x", pqOptional (pqInt 64))], rfl, by decide⟩
  exact ⟨h, C10_empty_merge "merged.parquet" ["x", "zz"] [fileX] id behOk h rfl⟩

end ParquetMerge
